import Mathlib

/-!
Verification of the MOOD-MIRROR minigame logic and the dominant-mood
heuristic.  The definitions below are a shallow embedding of the
JavaScript source:

* `PatternPulseGame` (match-3 grid game) from `src/unnamed/part_001`:
  `initGrid`, `handleOrbClick`, the 1-second countdown timer and the
  `onFinish` completion callback.
* `StressDissolveGame` (bubble game) from `src/unnamed/part_001`:
  the 700ms timer/spawn tick, the 16ms frame tick moving and culling
  bubbles, and `triggerBurst`.
* `getDominantMoodOfDay` from `src/src/App.jsx`.

Randomness (`Math.random()`) is modelled by an oracle `σ : Nat → Fin 5`
supplying the successive values of `Math.floor(Math.random() * 5)`
(always in `0..4` because `Math.random() < 1`), together with a strictly
increasing draw counter used for the `id:` fields: `Math.random()` ids
are almost surely pairwise distinct, which the counter models exactly.
-/

/-- The fixed 5-colour palette `COLORS` of both minigames. -/
def COLORS : List String :=
  ["#34d399", "#fbbf24", "#fb7185", "#38bdf8", "#818cf8"]

/-- One grid cell: `{ color, id }` as built by `initGrid` and the refill. -/
structure Token where
  color : String
  id : Nat
  deriving DecidableEq, Repr

/-- Placeholder token used to totalise list indexing (`grid[i]` in the
source is only ever evaluated at indices `0..24` of a 25-cell grid). -/
def defaultToken : Token := { color := "", id := 0 }

/-- `newGrid[k].color` — colour of cell `k`. -/
def colorAt (g : List Token) (k : Nat) : String :=
  (g.getD k defaultToken).color

/-- The adjacency test `[idx-1, idx+1, idx-5, idx+5].includes(selected)`
of `handleOrbClick`.  JavaScript arithmetic is over (exact) integers
here, so the test is stated over `ℤ`. -/
def isAdjacent (selected idx : Nat) : Prop :=
  (selected : ℤ) = (idx : ℤ) - 1 ∨ (selected : ℤ) = (idx : ℤ) + 1 ∨
  (selected : ℤ) = (idx : ℤ) - 5 ∨ (selected : ℤ) = (idx : ℤ) + 5

instance (selected idx : Nat) : Decidable (isAdjacent selected idx) := by
  unfold isAdjacent; infer_instance

/-- The destructuring swap
`[newGrid[idx], newGrid[selected]] = [newGrid[selected], newGrid[idx]]`:
both right-hand sides are read from the pre-assignment array. -/
def swapCells (g : List Token) (idx selected : Nat) : List Token :=
  (g.set idx (g.getD selected defaultToken)).set selected (g.getD idx defaultToken)

/-- The horizontal triple test of the match loop at `r = i*5 + j`
(row `i`, columns `j, j+1, j+2`): the three indices are added when the
three colours agree, else nothing. -/
def hTriple (g : List Token) (i j : Nat) : Finset ℕ :=
  if colorAt g (i * 5 + j) = colorAt g (i * 5 + j + 1) ∧
     colorAt g (i * 5 + j) = colorAt g (i * 5 + j + 2) then
    {i * 5 + j, i * 5 + j + 1, i * 5 + j + 2}
  else ∅

/-- The vertical triple test of the match loop at `c = j*5 + i`
(column `i`, rows `j, j+1, j+2`). -/
def vTriple (g : List Token) (i j : Nat) : Finset ℕ :=
  if colorAt g (j * 5 + i) = colorAt g (j * 5 + i + 5) ∧
     colorAt g (j * 5 + i) = colorAt g (j * 5 + i + 10) then
    {j * 5 + i, j * 5 + i + 5, j * 5 + i + 10}
  else ∅

/-- The `matches` set accumulated by the double loop
`for i in 0..4, for j in 0..2` of `handleOrbClick` (a JS `Set`, so
membership is deduplicated; accumulation order is irrelevant for the
resulting set). -/
def matchSet (g : List Token) : Finset ℕ :=
  (Finset.range 5).biUnion fun i =>
    (Finset.range 3).biUnion fun j => hTriple g i j ∪ vTriple g i j

/-- A freshly randomized token, as built by
`{ color: COLORS[Math.floor(Math.random()*COLORS.length)], id: Math.random() }`
at draw number `n` of the oracle. -/
def freshToken (σ : Nat → Fin 5) (n : Nat) : Token :=
  { color := COLORS.get ((σ n).cast (by decide)), id := n }

/-- Helper for the indexed map
`newGrid.map((o, i) => matches.has(i) ? fresh : o)`; `i` is the index of
the head of the remaining list and `rand` the session's draw counter. -/
def refillAux (σ : Nat → Fin 5) (rand : Nat) (m : Finset ℕ) :
    Nat → List Token → List Token
  | _, [] => []
  | i, t :: ts =>
      (if i ∈ m then freshToken σ (rand + i) else t) :: refillAux σ rand m (i + 1) ts

/-- The refill `newGrid.map((o, i) => matches.has(i) ? {color: …, id: …} : o)`:
every matched cell receives a fresh token in place, every other cell is
kept. -/
def refill (σ : Nat → Fin 5) (rand : Nat) (m : Finset ℕ) (g : List Token) :
    List Token :=
  refillAux σ rand m 0 g

/-- `initGrid`: 25 cells, each with an independently drawn palette colour
and a fresh id (draws `0..24` of the oracle). -/
def initGrid (σ : Nat → Fin 5) : List Token :=
  (List.range 25).map fun i => freshToken σ i

/-- The state of one `PatternPulseGame` session: the `grid`, `selected`,
`score`, `timeLeft` React states, the oracle draw counter `rand`, whether
`onFinish` has fired and the component was unmounted (`finished`), and
the list of scores passed to `onFinish` so far (`callbacks`). -/
structure GameState where
  grid : List Token
  selected : Option Nat
  score : Nat
  timeLeft : Nat
  rand : Nat
  finished : Bool
  callbacks : List Nat
  deriving DecidableEq, Repr

/-- `handleOrbClick(idx)`.  First click stores the selection; second
click runs the adjacency test, the swap, match detection, and either the
score/refill update or the revert (the revert swaps the local copy back
and never calls `setGrid`, so the grid state is unchanged); the
selection is cleared at the end of every attempt. -/
def handleOrbClick (σ : Nat → Fin 5) (st : GameState) (idx : Nat) : GameState :=
  match st.selected with
  | none => { st with selected := some idx }
  | some sel =>
    if isAdjacent sel idx then
      let newGrid := swapCells st.grid idx sel
      let ms := matchSet newGrid
      if 0 < ms.card then
        { st with
            grid := refill σ st.rand ms newGrid
            score := st.score + ms.card * 10
            rand := st.rand + 25
            selected := none }
      else
        { st with selected := none }
    else
      { st with selected := none }

/-- The 1-second interval `setTimeLeft(t => t > 0 ? t - 1 : 0)` together
with the effect `if (timeLeft === 0) onFinish(score)`.  When `timeLeft`
reaches 0 `onFinish` fires and the host view `setActiveGame(null)`
unmounts the component (clearing the interval), so a finished session
receives no further ticks. -/
def tick (st : GameState) : GameState :=
  if st.finished then st
  else if st.timeLeft ≤ 1 then
    { st with timeLeft := 0, finished := true, callbacks := st.callbacks ++ [st.score] }
  else
    { st with timeLeft := st.timeLeft - 1 }

/-- Events delivered to a `PatternPulseGame` session by the event loop:
timer ticks and orb clicks.  A click always names one of the 25 rendered
grid buttons, hence `Fin 25`. -/
inductive Event where
  | tick : Event
  | click : Fin 25 → Event
  deriving DecidableEq, Repr

/-- One serialized event-loop step.  A click after `onFinish` hits an
unmounted component (the host swapped the view out), so it is not
delivered. -/
def step (σ : Nat → Fin 5) (st : GameState) : Event → GameState
  | Event.tick => tick st
  | Event.click idx => if st.finished then st else handleOrbClick σ st idx.val

/-- Run a session through a list of events. -/
def runEvents (σ : Nat → Fin 5) (st : GameState) : List Event → GameState
  | [] => st
  | e :: es => runEvents σ (step σ st e) es

/-- The freshly mounted session: `initGrid()` has run (draws `0..24`),
`selected = null`, `score = 0`, `timeLeft = 45`. -/
def initState (σ : Nat → Fin 5) : GameState :=
  { grid := initGrid σ
    selected := none
    score := 0
    timeLeft := 45
    rand := 25
    finished := false
    callbacks := [] }

/-! ### StressDissolveGame (bubble game) -/

/-- One rising target of `StressDissolveGame`.  The numeric fields are
exact rationals: every value the source manipulates (`110`, `-20`,
multiples of the spawn draws, repeated subtraction of `speed`) stays in
`ℚ`. -/
structure Bubble where
  id : Nat
  x : ℚ
  y : ℚ
  color : String
  speed : ℚ
  size : ℚ
  deriving DecidableEq, Repr

/-- The `Math.random()` draws consumed by one spawn: the factors for
`x`, `speed` and `size` (each in `[0,1)`) and the colour pick. -/
structure SpawnDraw where
  rx : ℚ
  rs : ℚ
  rz : ℚ
  rc : Fin 5
  deriving DecidableEq, Repr

/-- The bubble built by the 700ms spawn:
`{ id, x: 10 + r*80, y: 110, color: COLORS[⌊r*5⌋], speed: 0.5 + r*1.5,
size: 50 + r*50 }`; `n` is the spawn counter standing in for the
almost-surely-fresh `Math.random()` id. -/
def mkBubble (π : Nat → SpawnDraw) (n : Nat) : Bubble :=
  { id := n
    x := 10 + (π n).rx * 80
    y := 110
    color := COLORS.get (((π n).rc).cast (by decide))
    speed := 1/2 + (π n).rs * (3/2)
    size := 50 + (π n).rz * 50 }

/-- The state of one `StressDissolveGame` session. -/
structure BubbleState where
  bubbles : List Bubble
  score : Nat
  timeLeft : Nat
  spawnCount : Nat
  finished : Bool
  callbacks : List Nat
  deriving DecidableEq, Repr

/-- One step of the 16ms frame interval on the target list:
`b.map(bubble => ({...bubble, y: bubble.y - bubble.speed})).filter(bubble => bubble.y > -20)`. -/
def frameTick (bs : List Bubble) : List Bubble :=
  (bs.map fun b => { b with y := b.y - b.speed }).filter fun b => -20 < b.y

/-- The 700ms timer callback: decrement `timeLeft` (on the final tick
`clearInterval` + `onFinish(score)` fire and the counter pins at 0),
then spawn a bubble when fewer than 8 are active. -/
def bubbleTimer (π : Nat → SpawnDraw) (st : BubbleState) : BubbleState :=
  if st.finished then st
  else
    let st1 :=
      if st.timeLeft ≤ 1 then
        { st with timeLeft := 0, finished := true, callbacks := st.callbacks ++ [st.score] }
      else { st with timeLeft := st.timeLeft - 1 }
    if st.bubbles.length < 8 then
      { st1 with bubbles := st1.bubbles ++ [mkBubble π st.spawnCount],
                 spawnCount := st.spawnCount + 1 }
    else st1

/-- `triggerBurst` on the rendered bubble with identity `i`: score `+1`
and the bubble is removed (the gas-cloud particles it also spawns are
purely cosmetic and carry no game state).  A tap can only be delivered
to a currently rendered bubble of a mounted component, hence the
guards. -/
def triggerBurst (st : BubbleState) (i : Nat) : BubbleState :=
  if st.finished then st
  else if st.bubbles.any fun b => b.id = i then
    { st with score := st.score + 1, bubbles := st.bubbles.filter fun b => b.id ≠ i }
  else st

/-- Events delivered to a `StressDissolveGame` session: the 700ms timer
tick, the 16ms frame tick, and a tap on a bubble. -/
inductive BEvent where
  | timer : BEvent
  | frame : BEvent
  | tap : Nat → BEvent
  deriving DecidableEq, Repr

/-- One serialized event-loop step of the bubble game.  Both intervals
are cleared when the session finishes (`clearInterval` plus the effect
cleanup on unmount), so a finished session receives no further events. -/
def bubbleStep (π : Nat → SpawnDraw) (st : BubbleState) : BEvent → BubbleState
  | BEvent.timer => bubbleTimer π st
  | BEvent.frame => if st.finished then st else { st with bubbles := frameTick st.bubbles }
  | BEvent.tap i => triggerBurst st i

/-- Run a bubble session through a list of events. -/
def runBubble (π : Nat → SpawnDraw) (st : BubbleState) : List BEvent → BubbleState
  | [] => st
  | e :: es => runBubble π (bubbleStep π st e) es

/-- The freshly mounted bubble session: no bubbles, `score = 0`,
`timeLeft = 30`. -/
def initBubble : BubbleState :=
  { bubbles := [], score := 0, timeLeft := 30, spawnCount := 0,
    finished := false, callbacks := [] }

/-! ### getDominantMoodOfDay (App.jsx) -/

/-- One calendar day: the four time-slot fields `q1..q4`, each either a
mood string or absent (`undefined`/`null`). -/
structure DayData where
  q1 : Option String
  q2 : Option String
  q3 : Option String
  q4 : Option String
  deriving DecidableEq, Repr

/-- `[dayData.q1, dayData.q2, dayData.q3, dayData.q4].filter(Boolean)`:
drops absent slots and, because `Boolean("") = false`, empty strings. -/
def moodsOf (d : DayData) : List String :=
  (([d.q1, d.q2, d.q3, d.q4].filterMap id).filter fun s => s ≠ "")

/-- The key list of the `freq` object built by
`moods.reduce((acc, m) => { acc[m] = (acc[m] || 0) + 1; return acc; }, {})`:
JavaScript string keys enumerate in insertion order, i.e. in order of
first occurrence in `moods`. -/
def firstKeys : List String → List String
  | [] => []
  | a :: l => a :: (firstKeys l).filter fun x => x ≠ a

/-- `getDominantMoodOfDay(dayData)`: `null` for a missing or empty
record; a mood filling 3+ of the 4 slots wins outright
(`Object.keys(freq).find(k => freq[k] >= 3)`); otherwise
`Object.keys(freq).reduce((a, b) => freq[a] > freq[b] ? a : b)` keeps
the earlier key unless the later one is strictly more frequent. -/
def getDominantMoodOfDay (dayData : Option DayData) : Option String :=
  match dayData with
  | none => none
  | some d =>
    let moods := moodsOf d
    if moods.isEmpty then none
    else
      let keys := firstKeys moods
      match keys.find? fun k => 3 ≤ moods.count k with
      | some w => some w
      | none =>
        match keys with
        | [] => none
        | a :: rest =>
            some (rest.foldl (fun x y => if moods.count y < moods.count x then x else y) a)

/-! ## Lemmas and claim theorems -/

lemma mem_hTriple (g : List Token) (i j k : ℕ) :
    k ∈ hTriple g i j ↔
      ((colorAt g (i * 5 + j) = colorAt g (i * 5 + j + 1) ∧
        colorAt g (i * 5 + j) = colorAt g (i * 5 + j + 2)) ∧
       (k = i * 5 + j ∨ k = i * 5 + j + 1 ∨ k = i * 5 + j + 2)) := by
  unfold hTriple
  split
  · rename_i h; simp only [Finset.mem_insert, Finset.mem_singleton]; tauto
  · rename_i h; simp only [Finset.not_mem_empty, false_iff]; tauto

lemma mem_vTriple (g : List Token) (i j k : ℕ) :
    k ∈ vTriple g i j ↔
      ((colorAt g (j * 5 + i) = colorAt g (j * 5 + i + 5) ∧
        colorAt g (j * 5 + i) = colorAt g (j * 5 + i + 10)) ∧
       (k = j * 5 + i ∨ k = j * 5 + i + 5 ∨ k = j * 5 + i + 10)) := by
  unfold vTriple
  split
  · rename_i h; simp only [Finset.mem_insert, Finset.mem_singleton]; tauto
  · rename_i h; simp only [Finset.not_mem_empty, false_iff]; tauto

/-- **C2.**  After an adjacent swap the match set computed by
`handleOrbClick` is exactly the deduplicated set of cell indices lying
in a triple of 3 horizontally consecutive same-colour cells of a single
row (row `r < 5`, start column `c < 3`, cells `r*5+c .. r*5+c+2`) or 3
vertically consecutive same-colour cells of a single column (column
`c < 5`, start row `r < 3`, cells `r*5+c, r*5+c+5, r*5+c+10`), scanned
over the whole 25-cell grid; no diagonal or cross-row-boundary triple
is matched. -/
theorem C2_matchSet_characterization (g : List Token) (k : ℕ) :
    k ∈ matchSet g ↔
      ((∃ r, r < 5 ∧ ∃ c, c < 3 ∧
          ((colorAt g (r * 5 + c) = colorAt g (r * 5 + c + 1) ∧
            colorAt g (r * 5 + c) = colorAt g (r * 5 + c + 2)) ∧
           (k = r * 5 + c ∨ k = r * 5 + c + 1 ∨ k = r * 5 + c + 2))) ∨
       (∃ c, c < 5 ∧ ∃ r, r < 3 ∧
          ((colorAt g (r * 5 + c) = colorAt g (r * 5 + c + 5) ∧
            colorAt g (r * 5 + c) = colorAt g (r * 5 + c + 10)) ∧
           (k = r * 5 + c ∨ k = r * 5 + c + 5 ∨ k = r * 5 + c + 10)))) := by
  unfold matchSet
  simp only [Finset.mem_biUnion, Finset.mem_range, Finset.mem_union,
    mem_hTriple, mem_vTriple]
  constructor
  · rintro ⟨i, hi, j, hj, h | h⟩
    · exact Or.inl ⟨i, hi, j, hj, h⟩
    · exact Or.inr ⟨i, hi, j, hj, h⟩
  · rintro (⟨r, hr, c, hc, h⟩ | ⟨c, hc, r, hr, h⟩)
    · exact ⟨r, hr, c, hc, Or.inl h⟩
    · exact ⟨c, hc, r, hr, Or.inr h⟩

/-- Every index in a match set names one of the 25 grid cells. -/
lemma matchSet_lt_25 {g : List Token} {k : ℕ} (h : k ∈ matchSet g) : k < 25 := by
  rcases (C2_matchSet_characterization g k).mp h with
    ⟨r, hr, c, hc, _, hk⟩ | ⟨c, hc, r, hr, _, hk⟩ <;> omega

/-- A fixed colour oracle (every draw picks palette colour 0), used to
instantiate the claim theorems at concrete sessions. -/
def constOracle : Nat → Fin 5 := fun _ => 0

/-- A concrete session state with cell 4 selected. -/
def demoStateC1 : GameState := { initState constOracle with selected := some 4 }

/-- **C1.**  With a previous selection `sel` and a click on `idx`
(both cell indices in `[0,24]`), `handleOrbClick` applies the swap iff
`idx` equals `sel − 1`, `sel + 1`, `sel − 5` or `sel + 5` as pure
integer index arithmetic (so the row-boundary pair 4,5 passes the ±1
test); on every non-adjacent pair — including `idx = sel` — the state
is unchanged except that the selection is cleared. -/
theorem C1_adjacency_gate (σ : Nat → Fin 5) (st : GameState) (sel idx : Nat)
    (hsel : st.selected = some sel) (_hs : sel ≤ 24) (_hi : idx ≤ 24) :
    (isAdjacent sel idx ↔
      ((idx : ℤ) = (sel : ℤ) - 1 ∨ (idx : ℤ) = (sel : ℤ) + 1 ∨
       (idx : ℤ) = (sel : ℤ) - 5 ∨ (idx : ℤ) = (sel : ℤ) + 5)) ∧
    (¬ isAdjacent sel idx → handleOrbClick σ st idx = { st with selected := none }) ∧
    (isAdjacent sel idx →
      handleOrbClick σ st idx =
        (if 0 < (matchSet (swapCells st.grid idx sel)).card then
          { st with
              grid := refill σ st.rand (matchSet (swapCells st.grid idx sel))
                        (swapCells st.grid idx sel)
              score := st.score + (matchSet (swapCells st.grid idx sel)).card * 10
              rand := st.rand + 25
              selected := none }
         else { st with selected := none })) := by
  refine ⟨?_, ?_, ?_⟩
  · unfold isAdjacent; omega
  · intro h; simp only [handleOrbClick, hsel]; rw [if_neg h]
  · intro h; simp only [handleOrbClick, hsel]; rw [if_pos h]

/-- Witness for C1: the row-boundary pair `sel = 4`, `idx = 5` passes
the pure index-arithmetic adjacency test. -/
theorem C1_adjacency_gate_witness :
    isAdjacent 4 5 ↔
      ((5 : ℤ) = (4 : ℤ) - 1 ∨ (5 : ℤ) = (4 : ℤ) + 1 ∨
       (5 : ℤ) = (4 : ℤ) - 5 ∨ (5 : ℤ) = (4 : ℤ) + 5) :=
  (C1_adjacency_gate constOracle demoStateC1 4 5 rfl (by decide) (by decide)).1

lemma refillAux_length (σ : Nat → Fin 5) (rand : Nat) (m : Finset ℕ) :
    ∀ (i : Nat) (g : List Token), (refillAux σ rand m i g).length = g.length
  | _, [] => rfl
  | i, _ :: ts => by
      simp [refillAux, refillAux_length σ rand m (i + 1) ts]

lemma refillAux_getD (σ : Nat → Fin 5) (rand : Nat) (m : Finset ℕ)
    (g : List Token) :
    ∀ (i k : Nat),
      (refillAux σ rand m i g).getD k defaultToken =
        if i + k ∈ m ∧ k < g.length then freshToken σ (rand + (i + k))
        else g.getD k defaultToken := by
  induction g with
  | nil => intro i k; simp [refillAux]
  | cons t ts ih =>
    intro i k
    cases k with
    | zero => simp [refillAux]
    | succ k =>
      simp only [refillAux, List.getD_cons_succ, ih (i + 1) k, List.length_cons]
      have h1 : i + 1 + k = i + (k + 1) := by omega
      rw [h1]
      exact if_congr (and_congr_right fun _ => by omega) rfl rfl

lemma mem_refillAux (σ : Nat → Fin 5) (rand : Nat) (m : Finset ℕ) :
    ∀ (g : List Token) (i : Nat) (t : Token), t ∈ refillAux σ rand m i g →
      t ∈ g ∨ ∃ k, k ∈ m ∧ t = freshToken σ (rand + k) := by
  intro g
  induction g with
  | nil => intro i t ht; simp [refillAux] at ht
  | cons a ts ih =>
    intro i t ht
    simp only [refillAux, List.mem_cons] at ht
    rcases ht with h | h
    · by_cases hm : i ∈ m
      · rw [if_pos hm] at h; exact Or.inr ⟨i, hm, h⟩
      · rw [if_neg hm] at h; exact Or.inl (by simp [h])
    · rcases ih (i + 1) t h with h2 | h2
      · exact Or.inl (List.mem_cons_of_mem _ h2)
      · exact Or.inr h2

lemma length_swapCells (g : List Token) (idx sel : Nat) :
    (swapCells g idx sel).length = g.length := by
  simp [swapCells]

lemma mem_swapCells {g : List Token} {idx sel : Nat} (hi : idx < g.length)
    (hs : sel < g.length) {t : Token} (ht : t ∈ swapCells g idx sel) : t ∈ g := by
  unfold swapCells at ht
  rcases List.mem_or_eq_of_mem_set ht with h | rfl
  · rcases List.mem_or_eq_of_mem_set h with h2 | rfl
    · exact h2
    · rw [List.getD_eq_getElem _ _ hs]; exact List.getElem_mem hs
  · rw [List.getD_eq_getElem _ _ hi]; exact List.getElem_mem hi

/-- The colour of a freshly drawn token is one of the 5 palette values. -/
lemma freshToken_color_mem (σ : Nat → Fin 5) (n : Nat) :
    (freshToken σ n).color ∈ COLORS := List.get_mem _ _ _

/-- **C3.**  An adjacent swap with a non-empty match set `m` adds
exactly `10 × |m|` to the score; the resulting grid is the single-pass
in-place refill of the swapped grid (match detection is not re-run, so a
match the refill creates is left unresolved); every matched index holds
the freshly drawn palette token whose id is new (distinct from every
pre-call id); every other cell keeps its post-swap token (no
gravity/drop-down). -/
theorem C3_match_scoring (σ : Nat → Fin 5) (st : GameState) (sel idx : Nat)
    (g1 : List Token) (m : Finset ℕ)
    (hsel : st.selected = some sel) (hadj : isAdjacent sel idx)
    (hg1 : g1 = swapCells st.grid idx sel) (hm : m = matchSet g1)
    (hlen : st.grid.length = 25)
    (hids : ∀ t ∈ st.grid, t.id < st.rand)
    (hne : m ≠ ∅) :
    (handleOrbClick σ st idx).score = st.score + 10 * m.card ∧
    (handleOrbClick σ st idx).grid = refill σ st.rand m g1 ∧
    (∀ k ∈ m,
      (handleOrbClick σ st idx).grid.getD k defaultToken = freshToken σ (st.rand + k) ∧
      colorAt (handleOrbClick σ st idx).grid k ∈ COLORS ∧
      ∀ t ∈ st.grid, ((handleOrbClick σ st idx).grid.getD k defaultToken).id ≠ t.id) ∧
    (∀ k, k < 25 → k ∉ m →
      (handleOrbClick σ st idx).grid.getD k defaultToken = g1.getD k defaultToken) := by
  subst hg1; subst hm
  have hcard : 0 < (matchSet (swapCells st.grid idx sel)).card :=
    Finset.card_pos.mpr (Finset.nonempty_iff_ne_empty.mpr hne)
  have hred : handleOrbClick σ st idx =
      { st with
          grid := refill σ st.rand (matchSet (swapCells st.grid idx sel))
                    (swapCells st.grid idx sel)
          score := st.score + (matchSet (swapCells st.grid idx sel)).card * 10
          rand := st.rand + 25
          selected := none } := by
    simp only [handleOrbClick, hsel]
    rw [if_pos hadj, if_pos hcard]
  have hlen1 : (swapCells st.grid idx sel).length = 25 := by
    rw [length_swapCells, hlen]
  refine ⟨?_, ?_, ?_, ?_⟩
  · rw [hred]; ring_nf
  · rw [hred]
  · intro k hk
    have hk25 : k < 25 := matchSet_lt_25 hk
    have hfresh : (handleOrbClick σ st idx).grid.getD k defaultToken =
        freshToken σ (st.rand + k) := by
      rw [hred]
      show (refillAux σ st.rand _ 0 _).getD k defaultToken = _
      rw [refillAux_getD]
      simp only [Nat.zero_add]
      rw [if_pos ⟨hk, by omega⟩]
    refine ⟨hfresh, ?_, ?_⟩
    · unfold colorAt; rw [hfresh]; exact freshToken_color_mem σ _
    · intro t ht
      rw [hfresh]
      have := hids t ht
      show st.rand + k ≠ t.id
      omega
  · intro k hk25 hk
    rw [hred]
    show (refillAux σ st.rand _ 0 _).getD k defaultToken = _
    rw [refillAux_getD]
    simp only [Nat.zero_add]
    rw [if_neg]
    rintro ⟨h1, _⟩
    exact hk h1

/-- Grid for the C3 witness: all cells `#34d399` except cell 2
(`#fbbf24`); swapping cells 2 and 7 completes (many) triples. -/
def demoGridC3 : List Token :=
  (List.range 25).map fun i =>
    { color := if i = 2 then "#fbbf24" else "#34d399", id := i }

/-- C3 witness session: cell 2 selected, about to click cell 7. -/
def demoStateC3 : GameState :=
  { grid := demoGridC3, selected := some 2, score := 0, timeLeft := 40,
    rand := 25, finished := false, callbacks := [] }

/-- Witness for C3: the concrete swap 2↔7 produces a non-empty match
set and the score increases by exactly `10 × |m|`. -/
theorem C3_match_scoring_witness :
    (handleOrbClick constOracle demoStateC3 7).score =
      demoStateC3.score + 10 * (matchSet (swapCells demoStateC3.grid 7 2)).card :=
  (C3_match_scoring constOracle demoStateC3 2 7
    (swapCells demoStateC3.grid 7 2) (matchSet (swapCells demoStateC3.grid 7 2))
    rfl (by decide) rfl rfl (by decide) (by decide) (by decide)).1

/-- **C4.**  An adjacent swap with an empty match set is a net no-op:
the grid and score are exactly those before the call and only the
selection is cleared — observably identical to a rejected non-adjacent
attempt. -/
theorem C4_revert_noop (σ : Nat → Fin 5) (st : GameState) (sel idx : Nat)
    (hsel : st.selected = some sel) (hadj : isAdjacent sel idx)
    (hempty : matchSet (swapCells st.grid idx sel) = ∅) :
    handleOrbClick σ st idx = { st with selected := none } ∧
    (handleOrbClick σ st idx).grid = st.grid ∧
    (handleOrbClick σ st idx).score = st.score ∧
    ∀ idx2 : Nat, ¬ isAdjacent sel idx2 →
      handleOrbClick σ st idx2 = handleOrbClick σ st idx := by
  have hred : handleOrbClick σ st idx = { st with selected := none } := by
    simp only [handleOrbClick, hsel]
    rw [if_pos hadj, hempty]
    simp
  refine ⟨hred, by rw [hred], by rw [hred], ?_⟩
  intro idx2 h2
  rw [hred]
  simp only [handleOrbClick, hsel]
  rw [if_neg h2]

/-- Grid for the C4 witness: row `r` holds the palette cyclically
shifted by `2r`, so no row or column contains a monochrome triple even
after swapping cells 0 and 1. -/
def demoGridC4 : List Token :=
  (List.range 25).map fun i =>
    { color := COLORS.get ⟨(i % 5 + 2 * (i / 5)) % 5, by
        have : (i % 5 + 2 * (i / 5)) % 5 < 5 := Nat.mod_lt _ (by omega)
        simpa [COLORS] using this⟩,
      id := i }

/-- C4 witness session: cell 0 selected, about to click cell 1. -/
def demoStateC4 : GameState :=
  { grid := demoGridC4, selected := some 0, score := 7, timeLeft := 40,
    rand := 25, finished := false, callbacks := [] }

/-- Witness for C4: the concrete adjacent swap 0↔1 matches nothing and
leaves the session unchanged apart from the cleared selection. -/
theorem C4_revert_noop_witness :
    handleOrbClick constOracle demoStateC4 1 = { demoStateC4 with selected := none } :=
  (C4_revert_noop constOracle demoStateC4 0 1 rfl (by decide) (by decide)).1

/-- The reachability invariant of a grid session: 25 cells, palette
colours only, any selection names a rendered cell, and every token id
predates the draw counter. -/
def stateInv (st : GameState) : Prop :=
  st.grid.length = 25 ∧ (∀ t ∈ st.grid, t.color ∈ COLORS) ∧
  (∀ s, st.selected = some s → s < 25) ∧ (∀ t ∈ st.grid, t.id < st.rand)

lemma stateInv_initState (σ : Nat → Fin 5) : stateInv (initState σ) := by
  refine ⟨by simp [initState, initGrid], ?_, ?_, ?_⟩
  · intro t ht
    simp only [initState, initGrid, List.mem_map, List.mem_range] at ht
    obtain ⟨i, _, rfl⟩ := ht
    exact freshToken_color_mem σ i
  · intro s hs; simp [initState] at hs
  · intro t ht
    simp only [initState, initGrid, List.mem_map, List.mem_range] at ht
    obtain ⟨i, hi, rfl⟩ := ht
    show i < 25
    exact hi

lemma stateInv_handleOrbClick (σ : Nat → Fin 5) (st : GameState) (idx : Nat)
    (hidx : idx < 25) (h : stateInv st) : stateInv (handleOrbClick σ st idx) := by
  obtain ⟨hlen, hcol, hselb, hid⟩ := h
  cases hs : st.selected with
  | none =>
    simp only [handleOrbClick, hs]
    refine ⟨hlen, hcol, ?_, hid⟩
    intro s h2
    simp only at h2
    obtain rfl := Option.some_injective _ h2.symm
    exact hidx
  | some sel =>
    have hsel25 : sel < 25 := hselb sel hs
    simp only [handleOrbClick, hs]
    by_cases hadj : isAdjacent sel idx
    · rw [if_pos hadj]
      by_cases hcard : 0 < (matchSet (swapCells st.grid idx sel)).card
      · rw [if_pos hcard]
        refine ⟨?_, ?_, ?_, ?_⟩
        · show (refillAux σ _ _ 0 _).length = 25
          rw [refillAux_length, length_swapCells, hlen]
        · intro t ht
          rcases mem_refillAux σ st.rand _ _ 0 t ht with h2 | ⟨k, _, rfl⟩
          · exact hcol t (mem_swapCells (by omega) (by omega) h2)
          · exact freshToken_color_mem σ _
        · intro s h2; simp at h2
        · intro t ht
          rcases mem_refillAux σ st.rand _ _ 0 t ht with h2 | ⟨k, hk, rfl⟩
          · have := hid t (mem_swapCells (by omega) (by omega) h2)
            show t.id < st.rand + 25
            omega
          · have hk25 : k < 25 := matchSet_lt_25 hk
            show st.rand + k < st.rand + 25
            omega
      · rw [if_neg hcard]
        exact ⟨hlen, hcol, by intro s h2; simp at h2, hid⟩
    · rw [if_neg hadj]
      exact ⟨hlen, hcol, by intro s h2; simp at h2, hid⟩

lemma stateInv_tick (st : GameState) (h : stateInv st) : stateInv (tick st) := by
  obtain ⟨hlen, hcol, hselb, hid⟩ := h
  unfold tick
  split
  · exact ⟨hlen, hcol, hselb, hid⟩
  · split
    · exact ⟨hlen, hcol, hselb, hid⟩
    · exact ⟨hlen, hcol, hselb, hid⟩

lemma stateInv_step (σ : Nat → Fin 5) (st : GameState) (e : Event)
    (h : stateInv st) : stateInv (step σ st e) := by
  cases e with
  | tick => exact stateInv_tick st h
  | click idx =>
    show stateInv (if st.finished then st else handleOrbClick σ st idx.val)
    split
    · exact h
    · exact stateInv_handleOrbClick σ st idx.val idx.isLt h

lemma stateInv_run (σ : Nat → Fin 5) (es : List Event) :
    ∀ st : GameState, stateInv st → stateInv (runEvents σ st es) := by
  induction es with
  | nil => intro st h; exact h
  | cons e es ih => intro st h; exact ih _ (stateInv_step σ st e h)

/-- **C5.**  Along every event sequence from `initGrid()` (swap
attempts, refills, ticks) the grid keeps exactly 25 cells and every
cell colour is one of the 5 palette values; `initGrid()` itself returns
a fully populated 25-cell grid, with no match-freedom guarantee (a
fully monochrome seeding already contains matches). -/
theorem C5_grid_invariant :
    (∀ (σ : Nat → Fin 5) (es : List Event),
       (runEvents σ (initState σ) es).grid.length = 25 ∧
       ∀ t ∈ (runEvents σ (initState σ) es).grid, t.color ∈ COLORS) ∧
    (∀ σ : Nat → Fin 5, (initGrid σ).length = 25) ∧
    (∃ σ : Nat → Fin 5, matchSet (initGrid σ) ≠ ∅) := by
  refine ⟨?_, ?_, ⟨constOracle, by decide⟩⟩
  · intro σ es
    have h := stateInv_run σ es (initState σ) (stateInv_initState σ)
    exact ⟨h.1, h.2.1⟩
  · intro σ; simp [initGrid]

/-- `handleOrbClick` never touches the timer, the finished flag or the
callback log. -/
lemma handleOrbClick_untouched (σ : Nat → Fin 5) (st : GameState) (idx : Nat) :
    (handleOrbClick σ st idx).finished = st.finished ∧
    (handleOrbClick σ st idx).callbacks = st.callbacks ∧
    (handleOrbClick σ st idx).timeLeft = st.timeLeft := by
  unfold handleOrbClick
  cases st.selected with
  | none => exact ⟨rfl, rfl, rfl⟩
  | some sel =>
    dsimp only
    split
    · split
      · exact ⟨rfl, rfl, rfl⟩
      · exact ⟨rfl, rfl, rfl⟩
    · exact ⟨rfl, rfl, rfl⟩

/-- The exactly-once callback invariant of a grid session. -/
def firedOnce (st : GameState) : Prop :=
  (st.finished = false → st.callbacks = []) ∧
  (st.finished = true → st.callbacks = [st.score])

lemma firedOnce_step (σ : Nat → Fin 5) (st : GameState) (e : Event)
    (h : firedOnce st) : firedOnce (step σ st e) := by
  cases e with
  | tick =>
    show firedOnce (tick st)
    unfold tick
    by_cases hf : st.finished = true
    · rw [if_pos hf]; exact h
    · rw [if_neg hf]
      have hf0 : st.finished = false := by
        cases hb : st.finished
        · rfl
        · exact absurd hb hf
      by_cases ht : st.timeLeft ≤ 1
      · rw [if_pos ht]
        constructor
        · intro h2; simp at h2
        · intro _
          show st.callbacks ++ [st.score] = [st.score]
          rw [h.1 hf0]; rfl
      · rw [if_neg ht]; exact h
  | click idx =>
    show firedOnce (if st.finished then st else handleOrbClick σ st idx.val)
    by_cases hf : st.finished = true
    · rw [if_pos hf]; exact h
    · rw [if_neg hf]
      have hf0 : st.finished = false := by
        cases hb : st.finished
        · rfl
        · exact absurd hb hf
      obtain ⟨hu1, hu2, _⟩ := handleOrbClick_untouched σ st idx.val
      constructor
      · intro _; rw [hu2]; exact h.1 hf0
      · intro h2; rw [hu1, hf0] at h2; exact absurd h2 (by simp)

lemma firedOnce_run (σ : Nat → Fin 5) (es : List Event) :
    ∀ st : GameState, firedOnce st → firedOnce (runEvents σ st es) := by
  induction es with
  | nil => intro st h; exact h
  | cons e es ih => intro st h; exact ih _ (firedOnce_step σ st e h)

/-- The exactly-once callback invariant of a bubble session. -/
def bubbleFiredOnce (st : BubbleState) : Prop :=
  (st.finished = false → st.callbacks = []) ∧
  (st.finished = true → st.callbacks = [st.score])

lemma bubbleFiredOnce_step (π : Nat → SpawnDraw) (st : BubbleState) (e : BEvent)
    (h : bubbleFiredOnce st) : bubbleFiredOnce (bubbleStep π st e) := by
  cases e with
  | timer =>
    show bubbleFiredOnce (bubbleTimer π st)
    unfold bubbleTimer
    by_cases hf : st.finished = true
    · rw [if_pos hf]; exact h
    · rw [if_neg hf]
      have hf0 : st.finished = false := by
        cases hb : st.finished
        · rfl
        · exact absurd hb hf
      have hcb : st.callbacks = [] := h.1 hf0
      by_cases ht : st.timeLeft ≤ 1
      · rw [if_pos ht]
        split
        · constructor
          · intro h2; simp at h2
          · intro _; show st.callbacks ++ [st.score] = [st.score]
            rw [hcb]; rfl
        · constructor
          · intro h2; simp at h2
          · intro _; show st.callbacks ++ [st.score] = [st.score]
            rw [hcb]; rfl
      · rw [if_neg ht]
        split
        · exact ⟨fun _ => hcb, fun h2 => by rw [hf0] at h2; exact absurd h2 (by simp)⟩
        · exact ⟨fun _ => hcb, fun h2 => by rw [hf0] at h2; exact absurd h2 (by simp)⟩
  | frame =>
    show bubbleFiredOnce (if st.finished then st else _)
    by_cases hf : st.finished = true
    · rw [if_pos hf]; exact h
    · rw [if_neg hf]
      rw [Bool.not_eq_true] at hf
      refine ⟨fun _ => h.1 hf, fun h2 => ?_⟩
      have h2x : st.finished = true := h2
      rw [hf] at h2x
      exact absurd h2x (by simp)
  | tap i =>
    show bubbleFiredOnce (triggerBurst st i)
    unfold triggerBurst
    by_cases hf : st.finished = true
    · rw [if_pos hf]; exact h
    · rw [if_neg hf]
      have hf0 : st.finished = false := by
        cases hb : st.finished
        · rfl
        · exact absurd hb hf
      split
      · exact ⟨fun _ => h.1 hf0,
               fun h2 => by rw [hf0] at h2; exact absurd h2 (by simp)⟩
      · exact h

lemma bubbleFiredOnce_run (π : Nat → SpawnDraw) (es : List BEvent) :
    ∀ st : BubbleState, bubbleFiredOnce st → bubbleFiredOnce (runBubble π st es) := by
  induction es with
  | nil => intro st h; exact h
  | cons e es ih => intro st h; exact ih _ (bubbleFiredOnce_step π st e h)

/-- A run of `n ≥ 1` consecutive 1-second ticks on an unfinished
session with `timeLeft = n` counts down to 0 and fires the callback
with the session's score. -/
lemma runEvents_ticks (σ : Nat → Fin 5) :
    ∀ (n : Nat) (st : GameState), st.finished = false → st.timeLeft = n → 1 ≤ n →
      runEvents σ st (List.replicate n Event.tick) =
        { st with timeLeft := 0, finished := true,
                  callbacks := st.callbacks ++ [st.score] } := by
  intro n
  induction n with
  | zero => intro st _ _ h; omega
  | succ n ih =>
    intro st hf ht _
    rw [List.replicate_succ]
    show runEvents σ (step σ st Event.tick) (List.replicate n Event.tick) = _
    by_cases hn : n = 0
    · subst hn
      show runEvents σ (tick st) [] = _
      show tick st = _
      unfold tick
      rw [if_neg (by simp [hf]), if_pos (by omega)]
    · have hstep : step σ st Event.tick = { st with timeLeft := st.timeLeft - 1 } := by
        show tick st = _
        unfold tick
        rw [if_neg (by simp [hf]), if_neg (by omega)]
      rw [hstep]
      rw [ih { st with timeLeft := st.timeLeft - 1 } hf
            (show st.timeLeft - 1 = n by omega) (by omega)]

/-- **C6.**  In both minigames the completion callback fires exactly
once, when `timeRemaining` reaches 0, and carries the session's final
score: along any event sequence an unfinished session has fired no
callback and a finished one has fired exactly `[score]`; and the
concrete grid session started at `timeLeft = 45`, `score = 0` that
receives 45 one-second ticks and no swaps is finished with the single
callback `[0]`. -/
theorem C6_callback_exactly_once :
    (∀ (σ : Nat → Fin 5) (es : List Event),
       ((runEvents σ (initState σ) es).finished = false →
          (runEvents σ (initState σ) es).callbacks = []) ∧
       ((runEvents σ (initState σ) es).finished = true →
          (runEvents σ (initState σ) es).callbacks =
            [(runEvents σ (initState σ) es).score])) ∧
    (∀ (π : Nat → SpawnDraw) (es : List BEvent),
       ((runBubble π initBubble es).finished = false →
          (runBubble π initBubble es).callbacks = []) ∧
       ((runBubble π initBubble es).finished = true →
          (runBubble π initBubble es).callbacks =
            [(runBubble π initBubble es).score])) ∧
    (∀ σ : Nat → Fin 5,
       (runEvents σ (initState σ) (List.replicate 45 Event.tick)).finished = true ∧
       (runEvents σ (initState σ) (List.replicate 45 Event.tick)).callbacks = [0] ∧
       (runEvents σ (initState σ) (List.replicate 45 Event.tick)).timeLeft = 0) := by
  refine ⟨?_, ?_, ?_⟩
  · intro σ es
    exact firedOnce_run σ es (initState σ) ⟨fun _ => rfl, fun h2 => by simp [initState] at h2⟩
  · intro π es
    exact bubbleFiredOnce_run π es initBubble ⟨fun _ => rfl, fun h2 => by simp [initBubble] at h2⟩
  · intro σ
    rw [runEvents_ticks σ 45 (initState σ) rfl rfl (by omega)]
    exact ⟨rfl, rfl, rfl⟩

lemma timerDone_step (σ : Nat → Fin 5) (st : GameState) (e : Event)
    (h : st.finished = true → st.timeLeft = 0) :
    (step σ st e).finished = true → (step σ st e).timeLeft = 0 := by
  cases e with
  | tick =>
    show (tick st).finished = true → (tick st).timeLeft = 0
    unfold tick
    by_cases hf : st.finished = true
    · rw [if_pos hf]; exact h
    · rw [if_neg hf]
      by_cases ht : st.timeLeft ≤ 1
      · rw [if_pos ht]; intro _; rfl
      · rw [if_neg ht]
        intro h2
        have h2x : st.finished = true := h2
        exact absurd h2x hf
  | click idx =>
    show (if st.finished then st else handleOrbClick σ st idx.val).finished = true →
      (if st.finished then st else handleOrbClick σ st idx.val).timeLeft = 0
    by_cases hf : st.finished = true
    · rw [if_pos hf]; exact h
    · rw [if_neg hf]
      obtain ⟨hu1, _, _⟩ := handleOrbClick_untouched σ st idx.val
      intro h2
      rw [hu1] at h2
      exact absurd h2 hf

lemma timerDone_run (σ : Nat → Fin 5) (es : List Event) :
    ∀ st : GameState, (st.finished = true → st.timeLeft = 0) →
      ((runEvents σ st es).finished = true → (runEvents σ st es).timeLeft = 0) := by
  induction es with
  | nil => intro st h; exact h
  | cons e es ih => intro st h; exact ih _ (timerDone_step σ st e h)

/-- **C7.**  A session that has transitioned to Finished (which only
happens because `timeRemaining` reached 0) is terminal: no further
event — in particular no swap attempt — is delivered, so the grid and
score (indeed the whole state) never change again. -/
theorem C7_finished_terminal (σ : Nat → Fin 5) (es : List Event) (e : Event)
    (hfin : (runEvents σ (initState σ) es).finished = true) :
    (runEvents σ (initState σ) es).timeLeft = 0 ∧
    step σ (runEvents σ (initState σ) es) e = runEvents σ (initState σ) es := by
  refine ⟨timerDone_run σ es (initState σ) (fun h2 => by simp [initState] at h2) hfin, ?_⟩
  cases e with
  | tick =>
    show tick _ = _
    unfold tick
    rw [if_pos hfin]
  | click idx =>
    show (if _ then _ else _) = _
    rw [if_pos hfin]

/-- Witness for C7: the session that ran out of its 45 ticks is
finished, its clock reads 0, and a click on cell 0 changes nothing. -/
theorem C7_finished_terminal_witness :
    (runEvents constOracle (initState constOracle) (List.replicate 45 Event.tick)).timeLeft = 0 ∧
    step constOracle (runEvents constOracle (initState constOracle) (List.replicate 45 Event.tick))
        (Event.click 0) =
      runEvents constOracle (initState constOracle) (List.replicate 45 Event.tick) :=
  C7_finished_terminal constOracle (List.replicate 45 Event.tick) (Event.click 0)
    (by rw [runEvents_ticks constOracle 45 (initState constOracle) rfl rfl (by omega)])

lemma score_le_handleOrbClick (σ : Nat → Fin 5) (st : GameState) (idx : Nat) :
    st.score ≤ (handleOrbClick σ st idx).score := by
  unfold handleOrbClick
  cases st.selected with
  | none => exact le_refl _
  | some sel =>
    dsimp only
    split
    · split
      · show st.score ≤ st.score + _ * 10
        omega
      · exact le_refl _
    · exact le_refl _

lemma score_le_step (σ : Nat → Fin 5) (st : GameState) (e : Event) :
    st.score ≤ (step σ st e).score := by
  cases e with
  | tick =>
    show st.score ≤ (tick st).score
    unfold tick
    split
    · exact le_refl _
    · split
      · exact le_refl _
      · exact le_refl _
  | click idx =>
    show st.score ≤ (if st.finished then st else handleOrbClick σ st idx.val).score
    split
    · exact le_refl _
    · exact score_le_handleOrbClick σ st idx.val

/-- **C8.**  The grid-session score starts at 0 and is monotonically
non-decreasing across any sequence of session operations: ticks,
rejected swaps, reverted swaps and resolved matches only ever leave it
equal or larger. -/
theorem C8_score_monotone :
    (∀ σ : Nat → Fin 5, (initState σ).score = 0) ∧
    (∀ (σ : Nat → Fin 5) (st : GameState) (es : List Event),
       st.score ≤ (runEvents σ st es).score) := by
  refine ⟨fun σ => rfl, ?_⟩
  intro σ st es
  induction es generalizing st with
  | nil => exact le_refl _
  | cons e es ih => exact le_trans (score_le_step σ st e) (ih _)

/-- `n` consecutive 16ms frame ticks on an unfinished bubble session
only iterate the move-and-cull pass on the target list. -/
lemma runBubble_frames (π : Nat → SpawnDraw) :
    ∀ (n : Nat) (st : BubbleState), st.finished = false →
      runBubble π st (List.replicate n BEvent.frame) =
        { st with bubbles := frameTick^[n] st.bubbles } := by
  intro n
  induction n with
  | zero => intro st _; rfl
  | succ n ih =>
    intro st hf
    rw [List.replicate_succ]
    show runBubble π (bubbleStep π st BEvent.frame) (List.replicate n BEvent.frame) = _
    have hstep : bubbleStep π st BEvent.frame = { st with bubbles := frameTick st.bubbles } := by
      show (if st.finished then st else _) = _
      rw [if_neg (by simp [hf])]
    rw [hstep, ih { st with bubbles := frameTick st.bubbles } hf,
      Function.iterate_succ_apply]

/-- `frameTick` on a single target: move it down by its speed, keep it
only while `y > -20` still holds. -/
lemma frameTick_singleton (b : Bubble) :
    frameTick [b] = if -20 < b.y - b.speed then [{ b with y := b.y - b.speed }] else [] := by
  unfold frameTick
  rw [List.map_cons, List.map_nil, List.filter_cons, List.filter_nil]
  by_cases h : -20 < b.y - b.speed
  · rw [if_pos (by simpa using h), if_pos h]
  · rw [if_neg (by simpa using h), if_neg h]

/-- The bubble of the C9 miss scenario: spawned at `y = 110` with
`speed = 1.5`. -/
def missBubble : Bubble :=
  { id := 0, x := 50, y := 110, color := "#34d399", speed := 3/2, size := 60 }

/-- For the first 86 frame ticks the miss bubble survives at
`y = 110 - n * 1.5`. -/
lemma miss_iter : ∀ n : Nat, n ≤ 86 →
    frameTick^[n] [missBubble] = [{ missBubble with y := 110 - n * (3/2) }] := by
  intro n
  induction n with
  | zero =>
    intro _
    simp only [Function.iterate_zero, id_eq, Nat.cast_zero]
    have hy : (110 : ℚ) - 0 * (3/2) = 110 := by norm_num
    rw [hy]
    rfl
  | succ n ih =>
    intro hn
    rw [Function.iterate_succ_apply', ih (by omega), frameTick_singleton]
    have hcast : (n : ℚ) ≤ 85 := by exact_mod_cast (by omega : n ≤ 85)
    have hcond : (-20 : ℚ) <
        ({ missBubble with y := 110 - n * (3/2) } : Bubble).y -
          ({ missBubble with y := 110 - n * (3/2) } : Bubble).speed := by
      show (-20 : ℚ) < 110 - n * (3/2) - 3/2
      linarith
    rw [if_pos hcond]
    have hy : ({ missBubble with y := 110 - n * (3/2) } : Bubble).y -
        ({ missBubble with y := 110 - n * (3/2) } : Bubble).speed =
        110 - ((n + 1 : Nat) : ℚ) * (3/2) := by
      show (110 : ℚ) - n * (3/2) - 3/2 = 110 - ((n + 1 : Nat) : ℚ) * (3/2)
      push_cast
      ring
    rw [hy]

/-- On frame tick 87 the miss bubble's `y` first drops below `-20`
(to `-20.5`) and the target is culled. -/
lemma miss_iter_87 : frameTick^[87] [missBubble] = [] := by
  rw [Function.iterate_succ_apply', miss_iter 86 (by omega), frameTick_singleton]
  rw [if_neg ?hc]
  case hc =>
    show ¬ ((-20 : ℚ) < 110 - (86 : Nat) * (3/2) - 3/2)
    norm_num

/-- A running bubble session holding only `missBubble`, with a non-zero
score to make "no score change" observable. -/
def missState : BubbleState :=
  { bubbles := [missBubble], score := 5, timeLeft := 30, spawnCount := 1,
    finished := false, callbacks := [] }

set_option maxRecDepth 100000 in
/-- **C9.**  Every 16ms frame tick lowers each active target's `y` by
that target's own `speed` and drops exactly the targets for which
`y > -20` now fails, never touching the score; consequently the target
spawned at `y = 110` with `speed = 1.5` is still present (at `y = -19`)
after 86 ticks and is removed, unscored, by tick 87 — the first tick at
which its `y` is below `-20`. -/
theorem C9_bubble_motion (π : Nat → SpawnDraw) (st : BubbleState)
    (hf : st.finished = false) :
    ((bubbleStep π st BEvent.frame).score = st.score ∧
     (bubbleStep π st BEvent.frame).bubbles =
       (st.bubbles.map fun b => { b with y := b.y - b.speed }).filter fun b => -20 < b.y) ∧
    ((runBubble π missState (List.replicate 86 BEvent.frame)).bubbles =
       [{ missBubble with y := -19 }] ∧
     (runBubble π missState (List.replicate 87 BEvent.frame)).bubbles = [] ∧
     (runBubble π missState (List.replicate 87 BEvent.frame)).score = missState.score) := by
  have hstep : bubbleStep π st BEvent.frame = { st with bubbles := frameTick st.bubbles } := by
    show (if st.finished then st else _) = _
    rw [if_neg (by simp [hf])]
  refine ⟨⟨by rw [hstep], by rw [hstep]; rfl⟩, ?_, ?_, ?_⟩
  · rw [runBubble_frames π 86 missState rfl]
    have h2 : frameTick^[86] missState.bubbles = [{ missBubble with y := -19 }] := by
      have hb : missState.bubbles = [missBubble] := rfl
      rw [hb, miss_iter 86 (by omega)]
      have hy : (110 : ℚ) - (86 : Nat) * (3/2) = -19 := by norm_num
      rw [hy]
    exact h2
  · rw [runBubble_frames π 87 missState rfl]
    have h2 : frameTick^[87] missState.bubbles = [] := by
      have hb : missState.bubbles = [missBubble] := rfl
      rw [hb]
      exact miss_iter_87
    exact h2
  · rw [runBubble_frames π 87 missState rfl]

/-- A fixed spawn oracle used to instantiate the bubble-game claims. -/
def zeroDraw : SpawnDraw := { rx := 0, rs := 0, rz := 0, rc := 0 }

/-- Witness for C9: after 87 concrete frame ticks the miss bubble is
gone and the score is untouched. -/
theorem C9_bubble_motion_witness :
    (runBubble (fun _ => zeroDraw) missState (List.replicate 87 BEvent.frame)).bubbles = [] ∧
    (runBubble (fun _ => zeroDraw) missState (List.replicate 87 BEvent.frame)).score =
      missState.score :=
  ⟨(C9_bubble_motion (fun _ => zeroDraw) missState rfl).2.2.1,
   (C9_bubble_motion (fun _ => zeroDraw) missState rfl).2.2.2⟩

/-- Two distinct values cannot account for more occurrences than the
list has elements. -/
lemma count_add_count_le_length (l : List String) (a b : String) (hab : a ≠ b) :
    l.count a + l.count b ≤ l.length := by
  induction l with
  | nil => simp
  | cons x xs ih =>
    simp only [List.count_cons, List.length_cons]
    split_ifs with h1 h2 h3
    · rw [beq_iff_eq] at h1 h2
      exact absurd (h1.symm.trans h2) hab
    · omega
    · omega
    · omega

/-- At most four slots feed the mood list. -/
lemma moodsOf_length_le (d : DayData) : (moodsOf d).length ≤ 4 := by
  unfold moodsOf
  have h1 := List.length_filter_le (fun s => s ≠ "")
    ([d.q1, d.q2, d.q3, d.q4].filterMap id)
  have h2 := List.length_filterMap_le id [d.q1, d.q2, d.q3, d.q4]
  simp only [List.length_cons, List.length_nil] at h2
  omega

/-- The insertion-ordered key list enumerates exactly the values of the
mood list. -/
lemma mem_firstKeys (l : List String) (x : String) : x ∈ firstKeys l ↔ x ∈ l := by
  induction l with
  | nil => simp [firstKeys]
  | cons a t ih =>
    simp only [firstKeys, List.mem_cons, List.mem_filter, decide_eq_true_eq]
    constructor
    · rintro (rfl | ⟨hx, _⟩)
      · exact Or.inl rfl
      · exact Or.inr (ih.mp hx)
    · rintro (rfl | hx)
      · exact Or.inl rfl
      · by_cases hxa : x = a
        · exact Or.inl hxa
        · exact Or.inr ⟨ih.mpr hx, hxa⟩

/-- The JavaScript `reduce((a,b) => freq[a] > freq[b] ? a : b)` fold:
its result is the seed or one of the folded elements, and its
`f`-value dominates the seed and every folded element. -/
lemma foldl_argmax (f : String → Nat) :
    ∀ (l : List String) (a : String),
      (l.foldl (fun p q => if f q < f p then p else q) a ∈ a :: l) ∧
      (f a ≤ f (l.foldl (fun p q => if f q < f p then p else q) a)) ∧
      (∀ x ∈ l, f x ≤ f (l.foldl (fun p q => if f q < f p then p else q) a)) := by
  intro l
  induction l with
  | nil => intro a; exact ⟨List.mem_cons_self a [], le_refl _, by simp⟩
  | cons b t ih =>
    intro a
    simp only [List.foldl_cons]
    obtain ⟨hmem, hseed, hall⟩ := ih (if f b < f a then a else b)
    have ha : f a ≤ f (if f b < f a then a else b) := by
      split
      · exact le_refl _
      · rename_i h; omega
    have hb : f b ≤ f (if f b < f a then a else b) := by
      split
      · rename_i h; omega
      · exact le_refl _
    refine ⟨?_, le_trans ha hseed, ?_⟩
    · rcases List.mem_cons.mp hmem with h | h
      · rw [h]
        split
        · exact List.mem_cons_self _ _
        · exact List.mem_cons_of_mem _ (List.mem_cons_self _ _)
      · exact List.mem_cons_of_mem _ (List.mem_cons_of_mem _ h)
    · intro x hx
      rcases List.mem_cons.mp hx with rfl | hx2
      · exact le_trans hb hseed
      · exact hall x hx2

/-- **C10.**  `getDominantMoodOfDay` returns `null` iff no slot of the
day holds a mood; a mood filling at least 3 of the 4 slots is returned
(the 75% threshold); and in every case the returned mood is present in
the record and has maximal frequency among the filled slots. -/
theorem C10_dominant_mood (d : DayData) :
    (getDominantMoodOfDay (some d) = none ↔ moodsOf d = []) ∧
    (∀ m : String, 3 ≤ (moodsOf d).count m → getDominantMoodOfDay (some d) = some m) ∧
    (∀ m : String, getDominantMoodOfDay (some d) = some m →
       m ∈ moodsOf d ∧ ∀ k ∈ moodsOf d, (moodsOf d).count k ≤ (moodsOf d).count m) := by
  by_cases hE : (moodsOf d).isEmpty = true
  · have hnil : moodsOf d = [] := List.isEmpty_iff.mp hE
    have hval : getDominantMoodOfDay (some d) = none := by
      simp only [getDominantMoodOfDay, hE, if_true]
    refine ⟨by rw [hval]; simp [hnil], ?_, ?_⟩
    · intro m h3
      rw [hnil] at h3
      simp at h3
    · intro m hm
      rw [hval] at hm
      exact absurd hm (by simp)
  · have hEF : (moodsOf d).isEmpty = false := by
      cases hb : (moodsOf d).isEmpty
      · rfl
      · exact absurd hb hE
    have hne : moodsOf d ≠ [] := by
      intro h
      rw [h] at hEF
      simp at hEF
    have hlen4 := moodsOf_length_le d
    cases hf : (firstKeys (moodsOf d)).find? fun k => 3 ≤ (moodsOf d).count k with
    | some w =>
      have hval : getDominantMoodOfDay (some d) = some w := by
        simp only [getDominantMoodOfDay, hEF, Bool.false_eq_true, if_false, hf]
      have hw3 : 3 ≤ (moodsOf d).count w := by
        have := List.find?_some hf
        simpa using this
      have hwmem : w ∈ moodsOf d :=
        (mem_firstKeys (moodsOf d) w).mp (List.mem_of_find?_eq_some hf)
      refine ⟨?_, ?_, ?_⟩
      · rw [hval]
        constructor
        · intro h; exact absurd h (by simp)
        · intro h; exact absurd h hne
      · intro m h3
        rw [hval]
        by_cases hmw : m = w
        · rw [hmw]
        · have := count_add_count_le_length (moodsOf d) m w hmw
          omega
      · intro m hm
        rw [hval] at hm
        have hwm : w = m := Option.some_injective _ hm
        subst hwm
        refine ⟨hwmem, ?_⟩
        intro k hk
        by_cases hkw : k = w
        · rw [hkw]
        · have := count_add_count_le_length (moodsOf d) k w hkw
          omega
    | none =>
      have hkne : firstKeys (moodsOf d) ≠ [] := by
        obtain ⟨x, hx⟩ := List.exists_mem_of_ne_nil _ hne
        intro h
        have := (mem_firstKeys (moodsOf d) x).mpr hx
        rw [h] at this
        simp at this
      cases hkeys : firstKeys (moodsOf d) with
      | nil => exact absurd hkeys hkne
      | cons a rest =>
        have hf2 : (a :: rest).find? (fun k => 3 ≤ (moodsOf d).count k) = none := by
          rw [← hkeys]
          exact hf
        have hval : getDominantMoodOfDay (some d) =
            some (rest.foldl
              (fun x y => if (moodsOf d).count y < (moodsOf d).count x then x else y) a) := by
          simp only [getDominantMoodOfDay, hEF, Bool.false_eq_true, if_false, hkeys, hf2]
        obtain ⟨hamem, haseed, hall⟩ := foldl_argmax ((moodsOf d).count) rest a
        have hno3 : ∀ x ∈ moodsOf d, ¬ (3 ≤ (moodsOf d).count x) := by
          intro x hx
          have hxk : x ∈ firstKeys (moodsOf d) := (mem_firstKeys (moodsOf d) x).mpr hx
          have := List.find?_eq_none.mp hf x hxk
          simpa using this
        refine ⟨?_, ?_, ?_⟩
        · rw [hval]
          constructor
          · intro h; exact absurd h (by simp)
          · intro h; exact absurd h hne
        · intro m h3
          have hmmem : m ∈ moodsOf d :=
            List.count_pos_iff.mp (by omega)
          exact absurd h3 (hno3 m hmmem)
        · intro m hm
          rw [hval] at hm
          have hwm : rest.foldl
              (fun x y => if (moodsOf d).count y < (moodsOf d).count x then x else y) a = m :=
            Option.some_injective _ hm
          subst hwm
          have hfold_keys : rest.foldl
              (fun x y => if (moodsOf d).count y < (moodsOf d).count x then x else y) a ∈
              firstKeys (moodsOf d) := by
            rw [hkeys]
            exact hamem
          refine ⟨(mem_firstKeys (moodsOf d) _).mp hfold_keys, ?_⟩
          intro k hk
          have hkk : k ∈ firstKeys (moodsOf d) := (mem_firstKeys (moodsOf d) k).mpr hk
          rw [hkeys] at hkk
          rcases List.mem_cons.mp hkk with rfl | hk2
          · exact haseed
          · exact hall k hk2

/-- Witness for C10: a day with three "joy" slots and one "calm" slot
is dominated by "joy" via the 3-of-4 threshold. -/
theorem C10_dominant_mood_witness :
    getDominantMoodOfDay
      (some { q1 := some "joy", q2 := some "joy", q3 := some "joy", q4 := some "calm" }) =
      some "joy" :=
  (C10_dominant_mood
      { q1 := some "joy", q2 := some "joy", q3 := some "joy", q4 := some "calm" }).2.1
    "joy" (by decide)
